import Mathlib

/-!
Shallow embedding of the FitAdviceForm backend (`src/server/index.js`, the
persisting variant, and `src/unnamed/part_001`, the metadata-only variant):
the multipart ingestion pipeline of `POST /api/submit-form`, the Mongoose
store, and the `GET /api/submissions` projection.  Every definition is
translated from the JavaScript source; wall-clock reads (`Date.now()`), the
bytes of a part's stream, and stream errors are modelled as inputs carried by
the part.
-/

namespace FitAdvice

/-- The six recognized document categories: exactly the keys of the `files`
object literal in both handler variants. -/
inductive Category
  | identityDocument
  | residencyProof
  | qualifications
  | businessPermit
  | liabilityInsurance
  | companyStatutes
deriving DecidableEq, Repr

open Category in
/-- `categoryOf name` embeds the lookup `files[name]` restricted to the six
own keys of the `files` object: `some c` exactly when `name` is one of the
six category field names. -/
def categoryOf (name : String) : Option Category :=
  if name = "identityDocument" then some identityDocument
  else if name = "residencyProof" then some residencyProof
  else if name = "qualifications" then some qualifications
  else if name = "businessPermit" then some businessPermit
  else if name = "liabilityInsurance" then some liabilityInsurance
  else if name = "companyStatutes" then some companyStatutes
  else none

/-- One file-bearing multipart part, together with the environmental inputs
the handler observes on it: `totalBytes` is the full length of the part's
byte stream, `bufferedBytes` the value of `part.file.bytesRead` at the moment
the handler inspects the stream (before any drain), `time` the value
`Date.now()` returns when the part is processed, and `streamFailure` is
`some d` when the stream emits an `error` event (detail `d`) instead of
`end`. -/
structure FilePart where
  filename : String
  mimetype : String
  totalBytes : Nat
  bufferedBytes : Nat
  time : Nat
  streamFailure : Option String
deriving DecidableEq, Repr

/-- One part of the multipart body: either a file part or a scalar field
part (`part.value` of a field part is always decoded text). -/
inductive Part
  | file (fieldname : String) (f : FilePart)
  | field (fieldname : String) (value : String)
deriving DecidableEq, Repr

/-- One entry of a category's FileList.  `path`/`storedName` are `some` only
in the persisting variant (`src/server/index.js`); the metadata-only variant
(`src/unnamed/part_001`) records neither. -/
structure FileRecord where
  originalname : String
  mimetype : String
  size : Nat
  path : Option String
  storedName : Option String
deriving DecidableEq, Repr

/-- The `files` accumulator object: the six FileList buckets, all present
from initialization on. -/
structure Files where
  identityDocument : List FileRecord
  residencyProof : List FileRecord
  qualifications : List FileRecord
  businessPermit : List FileRecord
  liabilityInsurance : List FileRecord
  companyStatutes : List FileRecord
deriving DecidableEq, Repr

/-- The initializer `{ identityDocument: [], ..., companyStatutes: [] }`. -/
def Files.empty : Files := ⟨[], [], [], [], [], []⟩

/-- Bucket lookup `files[c]` for a recognized category. -/
def Files.at (fs : Files) : Category → List FileRecord
  | .identityDocument => fs.identityDocument
  | .residencyProof => fs.residencyProof
  | .qualifications => fs.qualifications
  | .businessPermit => fs.businessPermit
  | .liabilityInsurance => fs.liabilityInsurance
  | .companyStatutes => fs.companyStatutes

/-- `files[c].push(r)`. -/
def Files.push (fs : Files) (c : Category) (r : FileRecord) : Files :=
  match c with
  | .identityDocument => { fs with identityDocument := fs.identityDocument ++ [r] }
  | .residencyProof => { fs with residencyProof := fs.residencyProof ++ [r] }
  | .qualifications => { fs with qualifications := fs.qualifications ++ [r] }
  | .businessPermit => { fs with businessPermit := fs.businessPermit ++ [r] }
  | .liabilityInsurance => { fs with liabilityInsurance := fs.liabilityInsurance ++ [r] }
  | .companyStatutes => { fs with companyStatutes := fs.companyStatutes ++ [r] }

/-- Lookup in the `body` object after a sequence of assignments
`body[k] = v`, recorded in execution order: the last assignment to a key
wins, a key never assigned is absent. -/
def bodyGet (ops : List (String × String)) (n : String) : Option String :=
  ops.foldl (fun acc kv => if kv.1 = n then some kv.2 else acc) none

/-- `path.basename`: the component after the last `/` (computed by a fold
that restarts after each separator). -/
def basename (s : String) : String :=
  String.mk (s.data.foldl (fun acc c => if c = '/' then [] else acc ++ [c]) [])

/-- The save path `path.join(UPLOADS_DIR, Date.now() + "-" + part.filename)`
built by the persisting sink. -/
def savePathOf (f : FilePart) : String :=
  "uploads/" ++ toString f.time ++ "-" ++ f.filename

/-- A completed write of a part's bytes to the uploads directory. -/
structure DiskWrite where
  path : String
  bytes : Nat
deriving DecidableEq, Repr

/-- Errors actually thrown inside the `POST /api/submit-form` try-block and
caught by its catch clause: a rejection of the awaited pipe promise (only
`part.file` gets an `error` listener) or a failing `save`.  A write-stream
(durable storage) error has no listener in `src/server/index.js` and `pipe`
does not reject the awaited promise on destination errors, so it never
becomes a caught pipeline error — see `awaitPipe` below. -/
inductive PipelineError
  | streamError (detail : String)
  | persistenceError (detail : String)
deriving DecidableEq, Repr

/-- Accumulator state of the persisting handler's `for await` loop:
the `body` assignment log, the `files` buckets, and the writes completed in
the uploads directory. -/
structure AState where
  bodyOps : List (String × String)
  files : Files
  writes : List DiskWrite
deriving DecidableEq, Repr

/-- Initial state: `body = {}`, the six empty buckets, nothing written. -/
def AState.init : AState := ⟨[], Files.empty, []⟩

/-- The FileRecord built by the persisting sink after the awaited drain:
`size` is `part.file.bytesRead || 0` read after the `end` event, i.e. the
fully drained byte count (`x || 0` is the identity on a byte count). -/
def persistRecordOf (f : FilePart) : FileRecord :=
  { originalname := f.filename
    mimetype := f.mimetype
    size := f.totalBytes
    path := some (savePathOf f)
    storedName := some (basename (savePathOf f)) }

/-- One loop iteration of the persisting handler (`src/server/index.js`
lines 137-161): a file part is piped to a write stream and awaited (`end`
resolves, `error` rejects into the catch); after the drain the record is
pushed only when `files[part.fieldname]` is one of the six buckets; a
non-file part does `body[part.fieldname] = part.value` unconditionally. -/
def persistStep (st : AState) (p : Part) : Except PipelineError AState :=
  match p with
  | .file name f =>
    match f.streamFailure with
    | some d => .error (.streamError d)
    | none =>
      let st := { st with writes := st.writes ++ [⟨savePathOf f, f.totalBytes⟩] }
      match categoryOf name with
      | some c => .ok { st with files := st.files.push c (persistRecordOf f) }
      | none => .ok st
  | .field name v => .ok { st with bodyOps := st.bodyOps ++ [(name, v)] }

/-- The whole `for await (const part of parts)` loop of the persisting
handler. -/
def persistAssemble (parts : List Part) : Except PipelineError AState :=
  parts.foldlM persistStep AState.init

/-- Accumulator state of the metadata-only handler (`src/unnamed/part_001`):
no disk writes. -/
structure MState where
  bodyOps : List (String × String)
  files : Files
deriving DecidableEq, Repr

/-- Initial state of the metadata-only loop. -/
def MState.init : MState := ⟨[], Files.empty⟩

/-- The FileRecord of the metadata-only sink: `size` is `part.file.bytesRead`
read without awaiting the stream, i.e. whatever was buffered at inspection
time; no path or stored name. -/
def metaRecordOf (f : FilePart) : FileRecord :=
  { originalname := f.filename
    mimetype := f.mimetype
    size := f.bufferedBytes
    path := none
    storedName := none }

/-- One loop iteration of the metadata-only handler (`src/unnamed/part_001`
lines 136-147): `if (part.file && part.fieldname)` pushes onto
`files[part.fieldname]` with no guard, so an unrecognized non-empty field
name dereferences `undefined` and throws a TypeError; a file part with an
empty field name falls through both branches and is skipped; a scalar part
is stored only when its field name is non-empty (its value is always a
string). -/
def metaStep (st : MState) (p : Part) : Except String MState :=
  match p with
  | .file name f =>
    if name = "" then .ok st
    else
      match categoryOf name with
      | some c => .ok { st with files := st.files.push c (metaRecordOf f) }
      | none => .error "TypeError: Cannot read properties of undefined"
  | .field name v =>
    if name = "" then .ok st
    else .ok { st with bodyOps := st.bodyOps ++ [(name, v)] }

/-- The whole `for await` loop of the metadata-only handler. -/
def metaAssemble (parts : List Part) : Except String MState :=
  parts.foldlM metaStep MState.init

/-- The JavaScript `x || d` fallback on an optional header value: an absent
or empty string falls back to `d`. -/
def jsOr (o : Option String) (d : String) : String :=
  match o with
  | some s => if s = "" then d else s
  | none => d

/-- The object passed to `new FormSubmission({...body, ...files, ipAddress,
userAgent})`: the scalar assignment log, the six buckets, and provenance. -/
structure Submission where
  bodyOps : List (String × String)
  files : Files
  ipAddress : String
  userAgent : String
deriving DecidableEq, Repr

/-- The submission constructed by the persisting handler
(`userAgent: req.headers["user-agent"] || "Unknown"`). -/
def mkSubmission (st : AState) (ip : String) (ua : Option String) : Submission :=
  ⟨st.bodyOps, st.files, ip, jsOr ua "Unknown"⟩

/-- The submission constructed by the metadata-only handler
(`userAgent: ... || "Unknown User Agent"`). -/
def mkMetaSubmission (st : MState) (ip : String) (ua : Option String) : Submission :=
  ⟨st.bodyOps, st.files, ip, jsOr ua "Unknown User Agent"⟩

/-- A value held by one field of the merged submission object. -/
inductive FieldValue
  | str (s : String)
  | fileList (l : List FileRecord)
deriving DecidableEq, Repr

/-- Field lookup on the merged object `{...body, ...files, ipAddress: ...,
userAgent: ...}`: a later spread or explicit property overrides an earlier
one, so the explicit provenance keys win over everything, the six `files`
keys (always present) win over `body`, and any other key reads from the
scalar map. -/
def mergedField (sub : Submission) (n : String) : Option FieldValue :=
  if n = "ipAddress" then some (.str sub.ipAddress)
  else if n = "userAgent" then some (.str sub.userAgent)
  else
    match categoryOf n with
    | some c => some (.fileList (sub.files.at c))
    | none => (bodyGet sub.bodyOps n).map .str

/-- The email path of a submission as the store sees it. -/
def emailOf (sub : Submission) : Option String :=
  bodyGet sub.bodyOps "email"

/-- Modelled from the spec: the enforcement of `email: { unique: true }`
lives in MongoDB's unique index, not in this repository's files; §4.4 of the
spec states that `save` fails with a `PersistenceError` when the uniqueness
constraint (when enabled) is violated, and otherwise appends the record.
`uniq` is `true` for the persisting variant's schema and `false` for the
metadata-only variant's. -/
def save (uniq : Bool) (store : List Submission) (sub : Submission) :
    Except PipelineError (List Submission) :=
  if uniq && store.any (fun t => emailOf t == emailOf sub) then
    .error (.persistenceError "E11000 duplicate key error")
  else
    .ok (store ++ [sub])

/-- An HTTP reply as both handlers build it: status, `success` flag,
`message`. -/
structure HttpResponse where
  status : Nat
  success : Bool
  message : String
deriving DecidableEq, Repr

/-- The catch clause of `POST /api/submit-form` (`src/server/index.js` lines
178-181): every thrown error, whatever its kind or detail, is logged and
answered with the same generic reply. -/
def submitFailureResponse (_e : PipelineError) : HttpResponse :=
  ⟨500, false, "Internal server error"⟩

/-- The full persisting `POST /api/submit-form` handler: drain and classify
all parts, build the submission, save it, and reply; any error reaches the
catch clause and leaves the store as it was. -/
def persistHandler (uniq : Bool) (store : List Submission) (parts : List Part)
    (ip : String) (ua : Option String) : HttpResponse × List Submission :=
  match persistAssemble parts with
  | .error e => (submitFailureResponse e, store)
  | .ok st =>
    match save uniq store (mkSubmission st ip ua) with
    | .error e => (submitFailureResponse e, store)
    | .ok store' => (⟨200, true, "Form submitted successfully!"⟩, store')

/-- The full metadata-only `POST /api/submit-form` handler
(`src/unnamed/part_001` lines 124-176); its schema declares
`unique: false`, so `save` runs unconstrained. -/
def metaHandler (store : List Submission) (parts : List Part)
    (ip : String) (ua : Option String) : HttpResponse × List Submission :=
  match metaAssemble parts with
  | .error _ => (⟨500, false, "Internal server error"⟩, store)
  | .ok st =>
    match save false store (mkMetaSubmission st ip ua) with
    | .error _ => (⟨500, false, "Internal server error"⟩, store)
    | .ok store' => (⟨200, true, "Formulaire soumis avec succès"⟩, store')

/-- How the one awaited promise of the persisting sink
(`src/server/index.js` lines 141-145) settles.  `rejected` feeds the
handler's catch clause; `unhandledError` is an `error` event fired on an
emitter that this code gave no listener — in Node that throws an uncaught
exception outside the try-block, so the catch clause and its generic 500
reply are never reached. -/
inductive AwaitOutcome
  | resolved
  | rejected (detail : String)
  | unhandledError (detail : String)
deriving DecidableEq, Repr

/-- The promise `new Promise((resolve, reject) => { part.file.pipe(writeStream);
part.file.on("end", resolve); part.file.on("error", reject); })`: listeners
exist only on `part.file`, so a source-stream error rejects, while a
write-stream (destination) error — disk full, permission denied — has no
listener and `pipe` does not forward it, leaving the event unhandled.
(When both streams error, the source error is taken first.) -/
def awaitPipe (sourceError destError : Option String) : AwaitOutcome :=
  match sourceError, destError with
  | some d, _ => .rejected d
  | none, some d => .unhandledError d
  | none, none => .resolved

/-- Whether a settled pipe promise transfers control to the handler's catch
clause (only a rejection does). -/
def reachesCatch (o : AwaitOutcome) : Bool :=
  match o with
  | .rejected _ => true
  | .resolved => false
  | .unhandledError _ => false

/-- A BSON value as the listing endpoint returns it. -/
inductive BsonVal
  | num (n : Nat)
  | str (s : String)
deriving DecidableEq, Repr

/-- A field of a stored `FormSubmission` document as the query layer sees
it: the system fields added by MongoDB and the `timestamps` option, the two
provenance fields, and the schema data fields under their names. -/
inductive DbField
  | id
  | createdAt
  | updatedAt
  | version
  | ipAddress
  | userAgent
  | data (name : String)
deriving DecidableEq, Repr

/-- One persisted `FormSubmission` document: every stored document carries
`_id`, `createdAt`, `updatedAt`, `__v`, and the provenance strings. -/
structure StoredDoc where
  docId : Nat
  createdTime : Nat
  updatedTime : Nat
  versionKey : Nat
  ip : String
  ua : String
  dataFields : List (String × String)
deriving DecidableEq, Repr

/-- Field lookup on a stored document. -/
def fieldOf (d : StoredDoc) : DbField → Option BsonVal
  | .id => some (.num d.docId)
  | .createdAt => some (.num d.createdTime)
  | .updatedAt => some (.num d.updatedTime)
  | .version => some (.num d.versionKey)
  | .ipAddress => some (.str d.ip)
  | .userAgent => some (.str d.ua)
  | .data n => ((d.dataFields.find? (fun kv => kv.1 == n)).map (fun kv => .str kv.2))

/-- The exclusion projection `select("-__v -updatedAt -ipAddress
-userAgent")` of the `GET /api/submissions` query, as the list of excluded
paths. -/
def exclusions : List DbField :=
  [.version, .updatedAt, .ipAddress, .userAgent]

/-- A projected document as returned by the listing endpoint. -/
structure Projected where
  projId : Option BsonVal
  createdAt : Option BsonVal
  updatedAt : Option BsonVal
  version : Option BsonVal
  ipAddress : Option BsonVal
  userAgent : Option BsonVal
  dataFields : List (String × String)
deriving DecidableEq, Repr

/-- A field survives the projection unless its path is excluded. -/
def keepField (d : StoredDoc) (f : DbField) : Option BsonVal :=
  if f ∈ exclusions then none else fieldOf d f

/-- Apply the exclusion projection to one stored document. -/
def project (d : StoredDoc) : Projected :=
  ⟨keepField d .id, keepField d .createdAt, keepField d .updatedAt,
   keepField d .version, keepField d .ipAddress, keepField d .userAgent,
   d.dataFields⟩

/-- The order `sort({ createdAt: -1 })` requests: `createdAt` descending. -/
def createdDescOrder (a b : StoredDoc) : Prop :=
  b.createdTime ≤ a.createdTime

instance : DecidableRel createdDescOrder := fun _ _ => Nat.decLe _ _

instance : IsTotal StoredDoc createdDescOrder :=
  ⟨fun a b => le_total b.createdTime a.createdTime⟩

instance : IsTrans StoredDoc createdDescOrder :=
  ⟨fun _ _ _ hab hbc => le_trans hbc hab⟩

/-- Sort the stored documents by `createdAt` descending. -/
def sortByCreatedDesc (l : List StoredDoc) : List StoredDoc :=
  l.insertionSort createdDescOrder

/-- The documents `GET /api/submissions` returns: the whole collection,
sorted newest-first, each passed through the exclusion projection. -/
def listRecent (store : List StoredDoc) : List Projected :=
  (sortByCreatedDesc store).map project

/-- The reply body of `GET /api/submissions` on the success path:
`{ success: true, count: submissions.length, data: submissions }`. -/
structure GetResponse where
  success : Bool
  count : Nat
  data : List Projected
deriving DecidableEq, Repr

/-- The `GET /api/submissions` handler's successful reply for a given store
state. -/
def getSubmissions (store : List StoredDoc) : GetResponse :=
  ⟨true, (listRecent store).length, listRecent store⟩

/-- The `createdAt` key a projected record exposes (`0` when absent — never
the case for a projected stored document). -/
def createdNum (r : Projected) : Nat :=
  match r.createdAt with
  | some (.num t) => t
  | _ => 0

/-! ### Observations on a request's part list -/

/-- The scalar assignments a part list performs, in arrival order
(the persisting loop assigns for every non-file part). -/
def scalarsOf (parts : List Part) : List (String × String) :=
  parts.filterMap fun p =>
    match p with
    | .field n v => some (n, v)
    | .file _ _ => none

/-- The scalar assignments the metadata-only loop performs: only parts with
a non-empty field name. -/
def metaScalarsOf (parts : List Part) : List (String × String) :=
  parts.filterMap fun p =>
    match p with
    | .field n v => if n = "" then none else some (n, v)
    | .file _ _ => none

/-- The file parts a part list submits under category `c`, in arrival
order. -/
def filesFor (c : Category) (parts : List Part) : List FilePart :=
  parts.filterMap fun p =>
    match p with
    | .file n f => if categoryOf n = some c then some f else none
    | .field _ _ => none

/-- The uploads-directory writes the persisting loop completes, one full
write per file part. -/
def writesOf (parts : List Part) : List DiskWrite :=
  parts.filterMap fun p =>
    match p with
    | .file _ f => some ⟨savePathOf f, f.totalBytes⟩
    | .field _ _ => none

/-- No part's byte stream signals an error. -/
def noStreamFailure (parts : List Part) : Bool :=
  parts.all fun p =>
    match p with
    | .file _ f => f.streamFailure.isNone
    | .field _ _ => true

/-- The metadata-only loop survives a part list exactly when every file part
has an empty or recognized field name. -/
def metaAcceptable (parts : List Part) : Bool :=
  parts.all fun p =>
    match p with
    | .file n _ => n = "" || (categoryOf n).isSome
    | .field _ _ => true

/-- The value of the last scalar part with field name `n`, if any. -/
def lastScalarValue (parts : List Part) (n : String) : Option String :=
  bodyGet (scalarsOf parts) n

/-- The request carries no file part at all. -/
def hasNoFileParts (parts : List Part) : Bool :=
  parts.all fun p =>
    match p with
    | .file _ _ => false
    | .field _ _ => true

/-! ### Decomposition lemmas for the two assembly loops -/

theorem Files.at_push (fs : Files) (c c' : Category) (r : FileRecord) :
    (fs.push c r).at c' = if c' = c then fs.at c' ++ [r] else fs.at c' := by
  cases c <;> cases c' <;> simp [Files.push, Files.at]

theorem bodyGet_append (a b : List (String × String)) (n : String) :
    bodyGet (a ++ b) n =
      match bodyGet b n with
      | some v => some v
      | none => bodyGet a n := by
  have aux : ∀ (l : List (String × String)) (acc : Option String),
      l.foldl (fun acc kv => if kv.1 = n then some kv.2 else acc) acc =
        match l.foldl (fun acc kv => if kv.1 = n then some kv.2 else acc) none with
        | some v => some v
        | none => acc := by
    intro l
    induction l with
    | nil => intro acc; rfl
    | cons kv l ih =>
      intro acc
      simp only [List.foldl_cons]
      rw [ih (if kv.1 = n then some kv.2 else acc),
          ih (if kv.1 = n then some kv.2 else none)]
      cases hres : l.foldl (fun acc kv => if kv.1 = n then some kv.2 else acc) none with
      | some v => simp
      | none => by_cases h : kv.1 = n <;> simp [h]
  simp only [bodyGet, List.foldl_append]
  exact aux b _

/-- Running the persisting loop over a failure-free part list from any state
succeeds and appends, componentwise, exactly the observations of the part
list. -/
theorem persistAux_ok (parts : List Part) (s : AState)
    (h : noStreamFailure parts = true) :
    ∃ st, parts.foldlM persistStep s = .ok st ∧
      st.bodyOps = s.bodyOps ++ scalarsOf parts ∧
      (∀ c, st.files.at c = s.files.at c ++ (filesFor c parts).map persistRecordOf) ∧
      st.writes = s.writes ++ writesOf parts := by
  induction parts generalizing s with
  | nil =>
    exact ⟨s, rfl, by simp [scalarsOf], fun c => by simp [filesFor], by simp [writesOf]⟩
  | cons p ps ih =>
    simp only [noStreamFailure, List.all_cons, Bool.and_eq_true] at h
    cases p with
    | field n v =>
      obtain ⟨st, hrun, hb, hf, hw⟩ := ih { s with bodyOps := s.bodyOps ++ [(n, v)] } h.2
      refine ⟨st, ?_, ?_, ?_, ?_⟩
      · simpa [List.foldlM_cons, persistStep, Except.bind] using hrun
      · simp only [hb]; simp [scalarsOf, List.filterMap_cons]
      · intro c; simp only [hf]; simp [filesFor, List.filterMap_cons]
      · simp only [hw]; simp [writesOf, List.filterMap_cons]
    | file n f =>
      have hnone : f.streamFailure = none := Option.isNone_iff_eq_none.mp h.1
      cases hcat : categoryOf n with
      | none =>
        obtain ⟨st, hrun, hb, hf', hw⟩ :=
          ih { s with writes := s.writes ++ [⟨savePathOf f, f.totalBytes⟩] } h.2
        refine ⟨st, ?_, ?_, ?_, ?_⟩
        · simpa [List.foldlM_cons, persistStep, hnone, hcat, Except.bind] using hrun
        · simp only [hb]; simp [scalarsOf, List.filterMap_cons]
        · intro c; simp only [hf' c]; simp [filesFor, List.filterMap_cons, hcat]
        · simp only [hw]; simp [writesOf, List.filterMap_cons]
      | some c0 =>
        obtain ⟨st, hrun, hb, hf', hw⟩ :=
          ih { s with writes := s.writes ++ [⟨savePathOf f, f.totalBytes⟩],
                      files := s.files.push c0 (persistRecordOf f) } h.2
        refine ⟨st, ?_, ?_, ?_, ?_⟩
        · simpa [List.foldlM_cons, persistStep, hnone, hcat, Except.bind] using hrun
        · simp only [hb]; simp [scalarsOf, List.filterMap_cons]
        · intro c
          simp only [hf' c, Files.at_push]
          by_cases hc : c = c0
          · subst hc
            simp [filesFor, List.filterMap_cons, hcat]
          · simp [filesFor, List.filterMap_cons, hcat, hc, Ne.symm hc]
        · simp only [hw]; simp [writesOf, List.filterMap_cons]

/-- Running the metadata-only loop over an acceptable part list from any
state succeeds and appends its observations. -/
theorem metaAux_ok (parts : List Part) (s : MState)
    (h : metaAcceptable parts = true) :
    ∃ st, parts.foldlM metaStep s = .ok st ∧
      st.bodyOps = s.bodyOps ++ metaScalarsOf parts ∧
      (∀ c, st.files.at c = s.files.at c ++ (filesFor c parts).map metaRecordOf) := by
  induction parts generalizing s with
  | nil =>
    exact ⟨s, rfl, by simp [metaScalarsOf], fun c => by simp [filesFor]⟩
  | cons p ps ih =>
    simp only [metaAcceptable, List.all_cons, Bool.and_eq_true] at h
    cases p with
    | field n v =>
      by_cases hn : n = ""
      · obtain ⟨st, hrun, hb, hf⟩ := ih s h.2
        refine ⟨st, ?_, ?_, ?_⟩
        · simpa [List.foldlM_cons, metaStep, hn, Except.bind] using hrun
        · simp only [hb]; simp [metaScalarsOf, List.filterMap_cons, hn]
        · intro c; simp only [hf c]; simp [filesFor, List.filterMap_cons]
      · obtain ⟨st, hrun, hb, hf⟩ := ih { s with bodyOps := s.bodyOps ++ [(n, v)] } h.2
        refine ⟨st, ?_, ?_, ?_⟩
        · simpa [List.foldlM_cons, metaStep, hn, Except.bind] using hrun
        · simp only [hb]; simp [metaScalarsOf, List.filterMap_cons, hn]
        · intro c; simp only [hf c]; simp [filesFor, List.filterMap_cons]
    | file n f =>
      by_cases hn : n = ""
      · obtain ⟨st, hrun, hb, hf⟩ := ih s h.2
        refine ⟨st, ?_, ?_, ?_⟩
        · simpa [List.foldlM_cons, metaStep, hn, Except.bind] using hrun
        · simp only [hb]; simp [metaScalarsOf, List.filterMap_cons]
        · intro c
          simp only [hf c]
          have : categoryOf n = none := by subst hn; decide
          simp [filesFor, List.filterMap_cons, this]
      · have hc : (categoryOf n).isSome := by
          rcases h.1 with h1
          simp [hn] at h1
          exact h1
        obtain ⟨c0, hc0⟩ := Option.isSome_iff_exists.mp hc
        obtain ⟨st, hrun, hb, hf⟩ :=
          ih { s with files := s.files.push c0 (metaRecordOf f) } h.2
        refine ⟨st, ?_, ?_, ?_⟩
        · simpa [List.foldlM_cons, metaStep, hn, hc0, Except.bind] using hrun
        · simp only [hb]; simp [metaScalarsOf, List.filterMap_cons]
        · intro c
          simp only [hf c, Files.at_push]
          by_cases hcc : c = c0
          · subst hcc; simp [filesFor, List.filterMap_cons, hc0]
          · simp [filesFor, List.filterMap_cons, hc0, hcc, Ne.symm hcc]

theorem Files.at_empty (c : Category) : Files.empty.at c = [] := by
  cases c <;> rfl

theorem Files.eq_of_at {fs fs' : Files} (h : ∀ c, fs.at c = fs'.at c) :
    fs = fs' := by
  cases fs
  cases fs'
  have h1 := h .identityDocument
  have h2 := h .residencyProof
  have h3 := h .qualifications
  have h4 := h .businessPermit
  have h5 := h .liabilityInsurance
  have h6 := h .companyStatutes
  simp only [Files.at] at h1 h2 h3 h4 h5 h6
  simp_all

/-- A part list with a failing stream errors the persisting loop from any
state. -/
theorem persistAux_err (parts : List Part) (s : AState)
    (h : noStreamFailure parts = false) :
    ∃ e, parts.foldlM persistStep s = .error e := by
  induction parts generalizing s with
  | nil => simp [noStreamFailure] at h
  | cons p ps ih =>
    simp only [noStreamFailure, List.all_cons, Bool.and_eq_false_iff] at h
    cases p with
    | field n v =>
      have htail : noStreamFailure ps = false := by
        rcases h with h | h
        · simp at h
        · exact h
      obtain ⟨e, he⟩ := ih { s with bodyOps := s.bodyOps ++ [(n, v)] } htail
      exact ⟨e, he⟩
    | file n f =>
      cases hsf : f.streamFailure with
      | some d =>
        refine ⟨.streamError d, ?_⟩
        simp only [List.foldlM_cons, persistStep, hsf]
        rfl
      | none =>
        have htail : noStreamFailure ps = false := by
          rcases h with h | h
          · simp [hsf] at h
          · exact h
        cases hcat : categoryOf n with
        | none =>
          obtain ⟨e, he⟩ :=
            ih { s with writes := s.writes ++ [⟨savePathOf f, f.totalBytes⟩] } htail
          refine ⟨e, ?_⟩
          simp only [List.foldlM_cons, persistStep, hsf, hcat]
          exact he
        | some c0 =>
          obtain ⟨e, he⟩ :=
            ih { s with writes := s.writes ++ [⟨savePathOf f, f.totalBytes⟩],
                        files := s.files.push c0 (persistRecordOf f) } htail
          refine ⟨e, ?_⟩
          simp only [List.foldlM_cons, persistStep, hsf, hcat]
          exact he

/-- A successful run of the persisting loop means no stream failed. -/
theorem persistAssemble_ok_noStreamFailure {parts : List Part} {st : AState}
    (h : persistAssemble parts = .ok st) : noStreamFailure parts = true := by
  by_contra hfail
  obtain ⟨e, he⟩ := persistAux_err parts AState.init (Bool.not_eq_true _ ▸ hfail)
  rw [persistAssemble] at h
  rw [he] at h
  exact Except.noConfusion h

/-- An unacceptable part list errors the metadata-only loop from any
state. -/
theorem metaAux_err (parts : List Part) (s : MState)
    (h : metaAcceptable parts = false) :
    ∃ e, parts.foldlM metaStep s = .error e := by
  induction parts generalizing s with
  | nil => simp [metaAcceptable] at h
  | cons p ps ih =>
    simp only [metaAcceptable, List.all_cons, Bool.and_eq_false_iff] at h
    cases p with
    | field n v =>
      have htail : metaAcceptable ps = false := by
        rcases h with h | h
        · simp at h
        · exact h
      by_cases hn : n = ""
      · obtain ⟨e, he⟩ := ih s htail
        exact ⟨e, by simpa [List.foldlM_cons, metaStep, hn, Except.bind] using he⟩
      · obtain ⟨e, he⟩ := ih { s with bodyOps := s.bodyOps ++ [(n, v)] } htail
        exact ⟨e, by simpa [List.foldlM_cons, metaStep, hn, Except.bind] using he⟩
    | file n f =>
      by_cases hn : n = ""
      · have htail : metaAcceptable ps = false := by
          rcases h with h | h
          · simp [hn] at h
          · exact h
        obtain ⟨e, he⟩ := ih s htail
        exact ⟨e, by simpa [List.foldlM_cons, metaStep, hn, Except.bind] using he⟩
      · cases hcat : categoryOf n with
        | none =>
          refine ⟨"TypeError: Cannot read properties of undefined", ?_⟩
          simp only [List.foldlM_cons, metaStep, hn, hcat, if_neg hn]
          rfl
        | some c0 =>
          have htail : metaAcceptable ps = false := by
            rcases h with h | h
            · simp [hn, hcat] at h
            · exact h
          obtain ⟨e, he⟩ := ih { s with files := s.files.push c0 (metaRecordOf f) } htail
          exact ⟨e, by simpa [List.foldlM_cons, metaStep, hn, hcat, Except.bind] using he⟩

/-- A successful run of the metadata-only loop means every file part's field
name was empty or recognized. -/
theorem metaAssemble_ok_acceptable {parts : List Part} {st : MState}
    (h : metaAssemble parts = .ok st) : metaAcceptable parts = true := by
  by_contra hfail
  obtain ⟨e, he⟩ := metaAux_err parts MState.init (Bool.not_eq_true _ ▸ hfail)
  rw [metaAssemble] at h
  rw [he] at h
  exact Except.noConfusion h

theorem bodyGet_cons (kv : String × String) (ops : List (String × String))
    (n : String) :
    bodyGet (kv :: ops) n =
      match bodyGet ops n with
      | some v => some v
      | none => if kv.1 = n then some kv.2 else none := by
  have := bodyGet_append [kv] ops n
  simpa [bodyGet] using this

/-- For a non-empty field name, dropping the empty-named scalar parts (as
the metadata-only loop does) changes no lookup. -/
theorem bodyGet_metaScalars (parts : List Part) (n : String) (hn : n ≠ "") :
    bodyGet (metaScalarsOf parts) n = bodyGet (scalarsOf parts) n := by
  induction parts with
  | nil => rfl
  | cons p ps ih =>
    cases p with
    | file m f =>
      simp only [metaScalarsOf, scalarsOf, List.filterMap_cons] at *
      exact ih
    | field m v =>
      by_cases hm : m = ""
      · subst hm
        have hmn : ¬(("" : String) = n) := fun h => hn h.symm
        have hms : metaScalarsOf (Part.field "" v :: ps) = metaScalarsOf ps := by
          simp [metaScalarsOf, List.filterMap_cons]
        have hss : scalarsOf (Part.field "" v :: ps) = ("", v) :: scalarsOf ps := by
          simp [scalarsOf, List.filterMap_cons]
        rw [hms, hss, ih, bodyGet_cons]
        cases bodyGet (scalarsOf ps) n <;> simp [hmn]
      · have hms : metaScalarsOf (Part.field m v :: ps) = (m, v) :: metaScalarsOf ps := by
          simp [metaScalarsOf, List.filterMap_cons, hm]
        have hss : scalarsOf (Part.field m v :: ps) = (m, v) :: scalarsOf ps := by
          simp [scalarsOf, List.filterMap_cons]
        rw [hms, hss, bodyGet_cons, bodyGet_cons, ih]

theorem createdNum_project (d : StoredDoc) :
    createdNum (project d) = d.createdTime := by
  simp [createdNum, project, keepField, exclusions, fieldOf]

/-! ## Claim theorems -/

/-- Claim C1, counterexample: in the metadata-only variant a file part whose
field name `"extra"` matches none of the six categories does not get
silently dropped — `files["extra"].push` dereferences `undefined`, the
TypeError reaches the catch clause, and the whole request fails with the
generic 500 reply. -/
theorem metaVariant_unrecognizedFilePart_failsRequest :
    metaHandler [] [Part.file "extra" ⟨"cv.pdf", "application/pdf", 4, 4, 7, none⟩]
        "2.2.2.2" (some "curl")
      = (⟨500, false, "Internal server error"⟩, [])
  ∧ (metaHandler [] [Part.file "extra" ⟨"cv.pdf", "application/pdf", 4, 4, 7, none⟩]
        "2.2.2.2" (some "curl")).1.success = false := by
  constructor <;> rfl

/-- Claim C1, amended: in the persisting variant a file part with an
unrecognized field name is silently dropped — it contributes no FileRecord,
no scalar entry, and the request behaves exactly as if the part were absent;
in the metadata-only variant only a file part with an empty field name is
silently dropped this way, while a non-empty unrecognized field name fails
the request (see the counterexample). -/
theorem unrecognizedFilePart_silentlyDropped
    (name : String) (f : FilePart) (parts : List Part)
    (hname : categoryOf name = none) (hfail : f.streamFailure = none)
    (hok : noStreamFailure parts = true) :
    (∃ st st', persistAssemble (Part.file name f :: parts) = .ok st ∧
        persistAssemble parts = .ok st' ∧
        st.bodyOps = st'.bodyOps ∧ st.files = st'.files)
  ∧ (∀ uniq store ip ua, persistHandler uniq store (Part.file name f :: parts) ip ua
        = persistHandler uniq store parts ip ua)
  ∧ metaAssemble (Part.file "" f :: parts) = metaAssemble parts := by
  have hok' : noStreamFailure (Part.file name f :: parts) = true := by
    simp only [noStreamFailure, List.all_cons, Bool.and_eq_true]
    exact ⟨by simp [hfail], hok⟩
  obtain ⟨st, hrun, hb, hfl, _⟩ := persistAux_ok (Part.file name f :: parts) AState.init hok'
  obtain ⟨st', hrun', hb', hfl', _⟩ := persistAux_ok parts AState.init hok
  have hbodyeq : st.bodyOps = st'.bodyOps := by
    rw [hb, hb']
    simp [scalarsOf, List.filterMap_cons]
  have hfileseq : st.files = st'.files := by
    refine Files.eq_of_at fun c => ?_
    rw [hfl c, hfl' c]
    simp [filesFor, List.filterMap_cons, hname]
  refine ⟨⟨st, st', hrun, hrun', hbodyeq, hfileseq⟩, ?_, ?_⟩
  · intro uniq store ip ua
    have hsub : mkSubmission st ip ua = mkSubmission st' ip ua := by
      simp [mkSubmission, hbodyeq, hfileseq]
    unfold persistHandler
    rw [show persistAssemble (Part.file name f :: parts) = .ok st from hrun,
        show persistAssemble parts = .ok st' from hrun']
    simp only [hsub]
  · rfl

/-- Claim C1, witness of the amended theorem at a concrete input. -/
theorem unrecognizedFilePart_silentlyDropped_witness :
    persistHandler true []
        [Part.file "extra" ⟨"cv.pdf", "application/pdf", 4, 4, 7, none⟩,
         Part.field "firstName" "Anna"] "1.1.1.1" (some "ua")
      = persistHandler true [] [Part.field "firstName" "Anna"] "1.1.1.1" (some "ua") :=
  (unrecognizedFilePart_silentlyDropped "extra" ⟨"cv.pdf", "application/pdf", 4, 4, 7, none⟩
      [Part.field "firstName" "Anna"] (by decide) rfl (by decide)).2.1 true [] "1.1.1.1" (some "ua")

/-- Claim C2, code bug: the metadata-only sink records `part.file.bytesRead`
without awaiting the stream, so for a part whose 5-byte stream has 0 bytes
buffered at inspection it stores size 0 and never drains the stream; the
persisting sink on the same part awaits the `end` event and records the
fully drained count 5 (the spec requires the drained count in both
strategies). -/
theorem metadataSink_sizeIgnoresStream :
    (∃ st, metaAssemble
          [Part.file "identityDocument" ⟨"id.png", "image/png", 5, 0, 11, none⟩] = .ok st ∧
        st.files.identityDocument = [⟨"id.png", "image/png", 0, none, none⟩])
  ∧ (0 : Nat) ≠ 5
  ∧ (∃ st, persistAssemble
          [Part.file "identityDocument" ⟨"id.png", "image/png", 5, 0, 11, none⟩] = .ok st ∧
        st.files.identityDocument
          = [⟨"id.png", "image/png", 5, some "uploads/11-id.png", some "11-id.png"⟩]) := by
  refine ⟨⟨_, rfl, ?_⟩, by decide, ⟨_, rfl, ?_⟩⟩ <;> decide

/-- Claim C3: with the uniqueness constraint enabled, the first save of a
submission into an empty store succeeds and persists exactly it; a second
request assembling to the same email value fails its save with a
PersistenceError that the handler maps to the generic 500 reply, leaving the
store unchanged. -/
theorem emailUniqueness_secondSubmissionRejected
    (s1 : Submission) (parts2 : List Part) (st2 : AState)
    (ip : String) (ua : Option String)
    (h2 : persistAssemble parts2 = .ok st2)
    (he : emailOf (mkSubmission st2 ip ua) = emailOf s1) :
    save true [] s1 = .ok [s1]
  ∧ save true [s1] (mkSubmission st2 ip ua)
      = .error (.persistenceError "E11000 duplicate key error")
  ∧ persistHandler true [s1] parts2 ip ua
      = (⟨500, false, "Internal server error"⟩, [s1]) := by
  have hdup : save true [s1] (mkSubmission st2 ip ua)
      = .error (.persistenceError "E11000 duplicate key error") := by
    simp [save, he]
  refine ⟨by simp [save], hdup, ?_⟩
  unfold persistHandler
  rw [h2]
  simp [hdup, submitFailureResponse]

/-- Claim C3, witness at a concrete duplicate email. -/
theorem emailUniqueness_secondSubmissionRejected_witness :
    persistHandler true [⟨[("email", "a@x.com")], Files.empty, "8.8.8.8", "Mozilla"⟩]
        [Part.field "email" "a@x.com"] "7.7.7.7" (some "curl")
      = (⟨500, false, "Internal server error"⟩,
         [⟨[("email", "a@x.com")], Files.empty, "8.8.8.8", "Mozilla"⟩]) :=
  (emailUniqueness_secondSubmissionRejected
      ⟨[("email", "a@x.com")], Files.empty, "8.8.8.8", "Mozilla"⟩
      [Part.field "email" "a@x.com"] ⟨[("email", "a@x.com")], Files.empty, []⟩
      "7.7.7.7" (some "curl") rfl rfl).2.2

/-- Claim C4: in any accepted request, each category's FileList is exactly
the arrival-ordered image of the file parts submitted under that category's
field name (so in particular the counts agree), in both variants. -/
theorem fileListCounts_matchSubmittedParts (parts : List Part) (c : Category) :
    (∀ st, persistAssemble parts = .ok st →
        st.files.at c = (filesFor c parts).map persistRecordOf ∧
        (st.files.at c).length = (filesFor c parts).length)
  ∧ (∀ st, metaAssemble parts = .ok st →
        st.files.at c = (filesFor c parts).map metaRecordOf ∧
        (st.files.at c).length = (filesFor c parts).length) := by
  constructor
  · intro st hok
    have hs := persistAssemble_ok_noStreamFailure hok
    obtain ⟨st0, hrun, _, hfl, _⟩ := persistAux_ok parts AState.init hs
    have heq : st = st0 := by
      rw [persistAssemble] at hok
      rw [hok] at hrun
      exact Except.ok.inj hrun
    rw [heq]
    have h := hfl c
    simp only [AState.init, Files.at_empty, List.nil_append] at h
    exact ⟨h, by rw [h, List.length_map]⟩
  · intro st hok
    have hs := metaAssemble_ok_acceptable hok
    obtain ⟨st0, hrun, _, hfl⟩ := metaAux_ok parts MState.init hs
    have heq : st = st0 := by
      rw [metaAssemble] at hok
      rw [hok] at hrun
      exact Except.ok.inj hrun
    rw [heq]
    have h := hfl c
    simp only [MState.init, Files.at_empty, List.nil_append] at h
    exact ⟨h, by rw [h, List.length_map]⟩

/-- Claim C4, witness: a concrete request with one identityDocument file,
one qualifications file and a scalar field. -/
theorem fileListCounts_matchSubmittedParts_witness :
    ∃ st, persistAssemble
        [Part.file "identityDocument" ⟨"a.png", "image/png", 3, 3, 5, none⟩,
         Part.file "qualifications" ⟨"q.pdf", "application/pdf", 2, 2, 6, none⟩,
         Part.field "firstName" "Anna"] = .ok st ∧
      st.files.at .identityDocument
        = (filesFor .identityDocument
            [Part.file "identityDocument" ⟨"a.png", "image/png", 3, 3, 5, none⟩,
             Part.file "qualifications" ⟨"q.pdf", "application/pdf", 2, 2, 6, none⟩,
             Part.field "firstName" "Anna"]).map persistRecordOf := by
  refine ⟨_, rfl, ?_⟩
  exact ((fileListCounts_matchSubmittedParts
      [Part.file "identityDocument" ⟨"a.png", "image/png", 3, 3, 5, none⟩,
       Part.file "qualifications" ⟨"q.pdf", "application/pdf", 2, 2, 6, none⟩,
       Part.field "firstName" "Anna"] .identityDocument).1 _ rfl).1

/-- Claim C5: a request with no file part at all succeeds in both variants,
and the assembled submission's six FileList buckets (always structurally
present) are all empty. -/
theorem zeroFileParts_succeeds_allBucketsEmpty
    (parts : List Part) (ip : String) (ua : Option String)
    (h : hasNoFileParts parts = true) :
    (∃ st, persistAssemble parts = .ok st ∧ st.files = Files.empty ∧
        (persistHandler true [] parts ip ua).1
          = ⟨200, true, "Form submitted successfully!"⟩)
  ∧ (∃ st, metaAssemble parts = .ok st ∧ st.files = Files.empty ∧
        (metaHandler [] parts ip ua).1
          = ⟨200, true, "Formulaire soumis avec succès"⟩) := by
  simp only [hasNoFileParts, List.all_eq_true] at h
  have hff : ∀ c, filesFor c parts = [] := by
    intro c
    refine List.filterMap_eq_nil_iff.mpr fun p hp => ?_
    cases p with
    | file n f => have := h _ hp; simp at this
    | field n v => rfl
  constructor
  · have hns : noStreamFailure parts = true := by
      simp only [noStreamFailure, List.all_eq_true]
      intro p hp
      cases p with
      | file n f => have := h _ hp; simp at this
      | field n v => simp
    obtain ⟨st0, hrun, _, hfl, _⟩ := persistAux_ok parts AState.init hns
    have hemp : st0.files = Files.empty := by
      refine Files.eq_of_at fun c => ?_
      rw [hfl c, hff c]
      simp [AState.init, Files.at_empty]
    refine ⟨st0, hrun, hemp, ?_⟩
    unfold persistHandler
    rw [show persistAssemble parts = .ok st0 from hrun]
    simp [save]
  · have hma : metaAcceptable parts = true := by
      simp only [metaAcceptable, List.all_eq_true]
      intro p hp
      cases p with
      | file n f => have := h _ hp; simp at this
      | field n v => simp
    obtain ⟨st0, hrun, _, hfl⟩ := metaAux_ok parts MState.init hma
    have hemp : st0.files = Files.empty := by
      refine Files.eq_of_at fun c => ?_
      rw [hfl c, hff c]
      simp [MState.init, Files.at_empty]
    refine ⟨st0, hrun, hemp, ?_⟩
    unfold metaHandler
    rw [show metaAssemble parts = .ok st0 from hrun]
    simp [save]

/-- Claim C5, witness: one scalar part, no file parts. -/
theorem zeroFileParts_succeeds_allBucketsEmpty_witness :
    ∃ st, persistAssemble [Part.field "firstName" "Anna"] = .ok st ∧
      st.files = Files.empty ∧
      (persistHandler true [] [Part.field "firstName" "Anna"] "3.3.3.3" (some "ff")).1
        = ⟨200, true, "Form submitted successfully!"⟩ :=
  (zeroFileParts_succeeds_allBucketsEmpty
    [Part.field "firstName" "Anna"] "3.3.3.3" (some "ff") (by decide)).1

/-- Claim C6: `GET /api/submissions` returns a projection of every stored
submission (a permutation of the projected store), sorted by creation time
descending, with the provenance fields and the version key excluded from
every returned record; on an empty store it returns success with count 0 and
no data. -/
theorem listRecent_sortedProjectedAll (store : List StoredDoc) :
    List.Perm (listRecent store) (store.map project)
  ∧ List.Pairwise (fun r1 r2 => createdNum r2 ≤ createdNum r1) (listRecent store)
  ∧ (∀ r, r ∈ listRecent store →
        r.ipAddress = none ∧ r.userAgent = none ∧ r.version = none)
  ∧ (getSubmissions store).success = true
  ∧ (getSubmissions store).count = store.length
  ∧ getSubmissions [] = ⟨true, 0, []⟩ := by
  refine ⟨?_, ?_, ?_, rfl, ?_, rfl⟩
  · exact (List.perm_insertionSort createdDescOrder store).map project
  · have hs := List.sorted_insertionSort createdDescOrder store
    have hp : List.Pairwise
        (fun a b => createdNum (project b) ≤ createdNum (project a))
        (sortByCreatedDesc store) := by
      refine hs.imp ?_
      intro a b hab
      rw [createdNum_project, createdNum_project]
      exact hab
    exact List.pairwise_map.mpr hp
  · intro r hr
    rcases List.mem_map.mp hr with ⟨d, _, rfl⟩
    refine ⟨?_, ?_, ?_⟩ <;> simp [project, keepField, exclusions]
  · simp [getSubmissions, listRecent, sortByCreatedDesc, List.length_map,
      List.length_insertionSort]

/-- Claim C6, witness: a two-document store. -/
theorem listRecent_sortedProjectedAll_witness :
    (getSubmissions
        [⟨1, 10, 20, 0, "9.9.9.9", "ua1", [("firstName", "Anna")]⟩,
         ⟨2, 30, 40, 0, "8.8.8.8", "ua2", []⟩]).count = 2
  ∧ (project ⟨1, 10, 20, 0, "9.9.9.9", "ua1", [("firstName", "Anna")]⟩).ipAddress = none :=
  ⟨(listRecent_sortedProjectedAll
      [⟨1, 10, 20, 0, "9.9.9.9", "ua1", [("firstName", "Anna")]⟩,
       ⟨2, 30, 40, 0, "8.8.8.8", "ua2", []⟩]).2.2.2.2.1,
   ((listRecent_sortedProjectedAll
      [⟨1, 10, 20, 0, "9.9.9.9", "ua1", [("firstName", "Anna")]⟩,
       ⟨2, 30, 40, 0, "8.8.8.8", "ua2", []⟩]).2.2.1
      (project ⟨1, 10, 20, 0, "9.9.9.9", "ua1", [("firstName", "Anna")]⟩)
      (by decide)).1⟩

/-- Claim C7, counterexample: a scalar part named after a file category is
stored in the scalar map, but the later `...files` spread overrides it in
the merged submission object, so the last scalar writer's value is not the
one present there. -/
theorem scalarReservedFieldName_overriddenByMerge :
    (∃ st, persistAssemble [Part.field "identityDocument" "x"] = .ok st ∧
        lastScalarValue [Part.field "identityDocument" "x"] "identityDocument" = some "x" ∧
        mergedField (mkSubmission st "1.1.1.1" (some "agent")) "identityDocument"
          = some (.fileList []))
  ∧ some (FieldValue.fileList []) ≠ some (FieldValue.str "x") := by
  exact ⟨⟨_, rfl, rfl, rfl⟩, by decide⟩

/-- Claim C7, amended: for a non-empty scalar field name that is none of the
six category names and neither `ipAddress` nor `userAgent`, the value of the
last scalar part under that name is the one present in the merged submission
object, in both variants; for those reserved names the later spreads
override the scalar map (see the counterexample). -/
theorem scalarLastWriterWins_unreservedNames
    (parts : List Part) (n v : String) (ip : String) (ua : Option String)
    (hn0 : n ≠ "") (hn1 : n ≠ "ipAddress") (hn2 : n ≠ "userAgent")
    (hn3 : categoryOf n = none)
    (hv : lastScalarValue parts n = some v) :
    (∀ st, persistAssemble parts = .ok st →
        mergedField (mkSubmission st ip ua) n = some (.str v))
  ∧ (∀ st, metaAssemble parts = .ok st →
        mergedField (mkMetaSubmission st ip ua) n = some (.str v)) := by
  constructor
  · intro st hok
    have hs := persistAssemble_ok_noStreamFailure hok
    obtain ⟨st0, hrun, hb, _, _⟩ := persistAux_ok parts AState.init hs
    have heq : st = st0 := by
      rw [persistAssemble] at hok
      rw [hok] at hrun
      exact Except.ok.inj hrun
    rw [heq]
    have hbody : bodyGet st0.bodyOps n = some v := by
      rw [hb]
      simpa [AState.init, lastScalarValue] using hv
    simp [mergedField, mkSubmission, hn1, hn2, hn3, hbody]
  · intro st hok
    have hs := metaAssemble_ok_acceptable hok
    obtain ⟨st0, hrun, hb, _⟩ := metaAux_ok parts MState.init hs
    have heq : st = st0 := by
      rw [metaAssemble] at hok
      rw [hok] at hrun
      exact Except.ok.inj hrun
    rw [heq]
    have hbody : bodyGet st0.bodyOps n = some v := by
      rw [hb]
      simp only [MState.init, List.nil_append]
      rw [bodyGet_metaScalars parts n hn0]
      exact hv
    simp [mergedField, mkMetaSubmission, hn1, hn2, hn3, hbody]

/-- Claim C7, witness: two scalar parts under `firstName`; the later one
wins. -/
theorem scalarLastWriterWins_unreservedNames_witness :
    ∃ st, persistAssemble [Part.field "firstName" "Anna", Part.field "firstName" "Bea"]
        = .ok st ∧
      mergedField (mkSubmission st "5.5.5.5" none) "firstName" = some (.str "Bea") := by
  refine ⟨_, rfl, ?_⟩
  exact (scalarLastWriterWins_unreservedNames
      [Part.field "firstName" "Anna", Part.field "firstName" "Bea"]
      "firstName" "Bea" "5.5.5.5" none
      (by decide) (by decide) (by decide) (by decide) (by decide)).1 _ rfl

/-- Claim C8, counterexample: a durable-write failure (`ENOSPC` on the write
stream) leaves the awaited pipe promise without a rejection — the event has
no listener, so it never transfers control to the catch clause that produces
the generic 500 — while a source-stream error does reach the catch.  So a
request failing with a storage error is not answered with the generic 500
the claim asserts. -/
theorem storageFailure_notAnsweredWithGeneric500 :
    awaitPipe none (some "ENOSPC") = .unhandledError "ENOSPC"
  ∧ reachesCatch (awaitPipe none (some "ENOSPC")) = false
  ∧ reachesCatch (awaitPipe (some "ECONNRESET") none) = true := by
  exact ⟨rfl, rfl, rfl⟩

/-- Claim C8, amended: every error that does reach the catch clause — a
stream rejection or a persistence failure, with any internal detail — is
answered by the one constant generic 500 reply, so the reply carries no
information about which of those occurred or its detail, and the store is
untouched; a storage (write-stream) error, however, never reaches the catch
clause, because no listener is attached to the write stream and `pipe` does
not reject the awaited promise, so it yields no generic 500 at all (see the
counterexample). -/
theorem handledErrors_collapseToGeneric500 :
    (∀ e : PipelineError, submitFailureResponse e = ⟨500, false, "Internal server error"⟩)
  ∧ (∀ e1 e2 : PipelineError, submitFailureResponse e1 = submitFailureResponse e2)
  ∧ (∀ parts e uniq store ip ua, persistAssemble parts = .error e →
        persistHandler uniq store parts ip ua
          = (⟨500, false, "Internal server error"⟩, store))
  ∧ (∀ parts st e uniq store ip ua, persistAssemble parts = .ok st →
        save uniq store (mkSubmission st ip ua) = .error e →
        persistHandler uniq store parts ip ua
          = (⟨500, false, "Internal server error"⟩, store))
  ∧ (∀ d, awaitPipe (some d) none = .rejected d ∧
        reachesCatch (awaitPipe (some d) none) = true)
  ∧ (∀ d, awaitPipe none (some d) = .unhandledError d ∧
        reachesCatch (awaitPipe none (some d)) = false) := by
  refine ⟨fun e => rfl, fun e1 e2 => rfl, ?_, ?_, fun d => ⟨rfl, rfl⟩, fun d => ⟨rfl, rfl⟩⟩
  · intro parts e uniq store ip ua h
    unfold persistHandler
    rw [h]
    rfl
  · intro parts st e uniq store ip ua h1 h2
    unfold persistHandler
    rw [h1]
    simp [h2, submitFailureResponse]

/-- Claim C8, witness: a request whose file stream aborts is answered with
the generic 500 and the store is unchanged. -/
theorem handledErrors_collapseToGeneric500_witness :
    persistHandler true []
        [Part.file "identityDocument" ⟨"a.png", "image/png", 9, 0, 3, some "ECONNRESET"⟩]
        "1.2.3.4" none
      = (⟨500, false, "Internal server error"⟩, []) :=
  handledErrors_collapseToGeneric500.2.2.1
    [Part.file "identityDocument" ⟨"a.png", "image/png", 9, 0, 3, some "ECONNRESET"⟩]
    (.streamError "ECONNRESET") true [] "1.2.3.4" none rfl

/-- Claim C9: in the persisting variant a file part with an unrecognized
field name still has its bytes fully written to a fresh path in the uploads
directory (the write completes with the part's full byte count) before the
record is dropped: the resulting state differs from processing the rest of
the request only by that orphaned disk write, which no FileRecord of any
category references. -/
theorem unrecognizedFile_fullyWritten_orphaned
    (name : String) (f : FilePart) (parts : List Part)
    (hname : categoryOf name = none) (hfail : f.streamFailure = none)
    (hok : noStreamFailure parts = true) :
    ∃ st st', persistAssemble (Part.file name f :: parts) = .ok st ∧
      persistAssemble parts = .ok st' ∧
      st.writes = ⟨savePathOf f, f.totalBytes⟩ :: st'.writes ∧
      st.files = st'.files ∧
      ((∀ c r, r ∈ st'.files.at c → r.path ≠ some (savePathOf f)) →
        ∀ c r, r ∈ st.files.at c → r.path ≠ some (savePathOf f)) := by
  have hok' : noStreamFailure (Part.file name f :: parts) = true := by
    simp only [noStreamFailure, List.all_cons, Bool.and_eq_true]
    exact ⟨by simp [hfail], hok⟩
  obtain ⟨st, hrun, _, hfl, hw⟩ := persistAux_ok (Part.file name f :: parts) AState.init hok'
  obtain ⟨st', hrun', _, hfl', hw'⟩ := persistAux_ok parts AState.init hok
  have hfileseq : st.files = st'.files := by
    refine Files.eq_of_at fun c => ?_
    rw [hfl c, hfl' c]
    simp [filesFor, List.filterMap_cons, hname]
  refine ⟨st, st', hrun, hrun', ?_, hfileseq, ?_⟩
  · rw [hw, hw']
    simp [writesOf, List.filterMap_cons, AState.init]
  · intro horphan c r hr
    rw [hfileseq] at hr
    exact horphan c r hr

/-- Claim C9, witness: a lone unrecognized file part leaves one completed
4-byte disk write and six empty buckets. -/
theorem unrecognizedFile_fullyWritten_orphaned_witness :
    ∃ st st', persistAssemble
        [Part.file "misc" ⟨"report.docx", "application/msword", 4, 4, 9, none⟩] = .ok st ∧
      persistAssemble ([] : List Part) = .ok st' ∧
      st.writes = ⟨savePathOf ⟨"report.docx", "application/msword", 4, 4, 9, none⟩,
          (⟨"report.docx", "application/msword", 4, 4, 9, none⟩ : FilePart).totalBytes⟩
        :: st'.writes ∧
      st.files = st'.files ∧
      ((∀ c r, r ∈ st'.files.at c →
          r.path ≠ some (savePathOf ⟨"report.docx", "application/msword", 4, 4, 9, none⟩)) →
        ∀ c r, r ∈ st.files.at c →
          r.path ≠ some (savePathOf ⟨"report.docx", "application/msword", 4, 4, 9, none⟩)) :=
  unrecognizedFile_fullyWritten_orphaned "misc"
    ⟨"report.docx", "application/msword", 4, 4, 9, none⟩ [] (by decide) rfl (by decide)

/-- Claim C10: the `GET /api/submissions` projection also drops `updatedAt`,
while `createdAt` and the document identifier survive it — in the projection
of any single document and in every record the endpoint returns. -/
theorem projectionDropsUpdatedAt_keepsIdCreatedAt (store : List StoredDoc) (d : StoredDoc) :
    (project d).updatedAt = none
  ∧ (project d).createdAt = some (.num d.createdTime)
  ∧ (project d).projId = some (.num d.docId)
  ∧ (∀ r, r ∈ listRecent store →
        r.updatedAt = none ∧ (∃ t, r.createdAt = some (.num t)) ∧
        ∃ i, r.projId = some (.num i)) := by
  refine ⟨?_, ?_, ?_, ?_⟩
  · simp [project, keepField, exclusions]
  · simp [project, keepField, exclusions, fieldOf]
  · simp [project, keepField, exclusions, fieldOf]
  · intro r hr
    rcases List.mem_map.mp hr with ⟨d0, _, rfl⟩
    exact ⟨by simp [project, keepField, exclusions],
      ⟨d0.createdTime, by simp [project, keepField, exclusions, fieldOf]⟩,
      ⟨d0.docId, by simp [project, keepField, exclusions, fieldOf]⟩⟩

/-- Claim C10, witness: a concrete store and document. -/
theorem projectionDropsUpdatedAt_keepsIdCreatedAt_witness :
    (project ⟨3, 50, 60, 0, "6.6.6.6", "ua3", []⟩).updatedAt = none
  ∧ (project ⟨3, 50, 60, 0, "6.6.6.6", "ua3", []⟩).createdAt = some (.num 50)
  ∧ (project ⟨3, 50, 60, 0, "6.6.6.6", "ua3", []⟩).updatedAt = none :=
  ⟨(projectionDropsUpdatedAt_keepsIdCreatedAt [⟨3, 50, 60, 0, "6.6.6.6", "ua3", []⟩]
      ⟨3, 50, 60, 0, "6.6.6.6", "ua3", []⟩).1,
   (projectionDropsUpdatedAt_keepsIdCreatedAt [⟨3, 50, 60, 0, "6.6.6.6", "ua3", []⟩]
      ⟨3, 50, 60, 0, "6.6.6.6", "ua3", []⟩).2.1,
   ((projectionDropsUpdatedAt_keepsIdCreatedAt [⟨3, 50, 60, 0, "6.6.6.6", "ua3", []⟩]
      ⟨3, 50, 60, 0, "6.6.6.6", "ua3", []⟩).2.2.2
      (project ⟨3, 50, 60, 0, "6.6.6.6", "ua3", []⟩) (by decide)).1⟩

end FitAdvice
